import Mathlib

/-!
Verification development for the Simple-Catalog photo-gallery web server
(src/server.js, src/template.js). The JavaScript code is shallowly embedded:
the filesystem becomes an explicit association list from normalized paths to
file contents, each HTTP handler becomes a pure function from server state and
request to an outcome, and platform primitives (POSIX path resolution,
percent-decoding, JSON.parse, the regex engine used by String.replace) are
translated into executable Lean definitions.
-/

namespace SimpleCatalog

/-! ## List-of-characters utilities (JS string primitives) -/

/-- Splits a character list at every occurrence of the separator character,
mirroring JavaScript String.prototype.split with a single-character
separator (used by server.js as pathname.split('/') and filename.split('.')). -/
def splitOnChar (sep : Char) : List Char → List (List Char)
  | [] => [[]]
  | c :: cs =>
    if c = sep then [] :: splitOnChar sep cs
    else
      match splitOnChar sep cs with
      | [] => [[c]]
      | p :: ps => (c :: p) :: ps

/-- Breaks a character list at the first occurrence of the separator,
returning the part before it and, when the separator occurs, the part
after it. Used to model url.parse splitting the request URL at the
first question mark. -/
def breakAtChar (sep : Char) : List Char → List Char × Option (List Char)
  | [] => ([], none)
  | c :: cs =>
    if c = sep then ([], some cs)
    else
      let r := breakAtChar sep cs
      (c :: r.1, r.2)

/-- Worker for slash collapsing; the flag records whether the previously
emitted character was a slash, in which case further slashes are dropped. -/
def collapseAux : Bool → List Char → List Char
  | _, [] => []
  | prevSlash, c :: rest =>
    if c = '/' then
      if prevSlash then collapseAux true rest
      else '/' :: collapseAux true rest
    else c :: collapseAux false rest

/-- Collapses every run of consecutive slashes to a single slash. This models
POSIX pathname resolution of repeated separators, which server.js relies on
when it concatenates a leading-slash URL onto the string images/ before
calling fs.readFile. -/
def collapseSlashes (l : List Char) : List Char :=
  collapseAux false l

/-- Normalized form of a path string: runs of slashes collapsed. All
filesystem-model lookups go through this normalization. -/
def normPath (p : String) : String :=
  String.mk (collapseSlashes p.data)

/-- Value of a hexadecimal digit character, when it is one. -/
def hexVal (c : Char) : Option Nat :=
  if '0' ≤ c ∧ c ≤ '9' then some (c.toNat - '0'.toNat)
  else if 'a' ≤ c ∧ c ≤ 'f' then some (c.toNat - 'a'.toNat + 10)
  else if 'A' ≤ c ∧ c ≤ 'F' then some (c.toNat - 'A'.toNat + 10)
  else none

/-- Percent-decoding of a character list: each valid %hh escape becomes the
character with that code, other characters pass through. This models
JavaScript decodeURIComponent for ASCII escapes and for strings without
percent signs (multi-byte UTF-8 recombination is not modelled; no claim
exercises it). -/
def percentDecode : List Char → List Char
  | [] => []
  | [c] => [c]
  | [c, d] => c :: percentDecode [d]
  | c :: a :: b :: rest =>
    if c = '%' then
      match hexVal a, hexVal b with
      | some x, some y => Char.ofNat (16 * x + y) :: percentDecode rest
      | _, _ => c :: percentDecode (a :: b :: rest)
    else c :: percentDecode (a :: b :: rest)

/-- Embeds decodeURIComponent as used by serveImage in src/server.js. -/
def decodeURIComponent (s : String) : String :=
  String.mk (percentDecode s.data)

/-! ## Filesystem model -/

/-- The filesystem visible to the server process: a set of existing
directories and an association list from normalized file paths to file
contents (bytes modelled as the characters of a string). -/
structure FS where
  dirs : List String
  entries : List (String × String)

/-- Embeds fs.readFile: looks the normalized path up among the entries,
yielding the contents on success and none on the error branch. -/
def FS.readFile (fs : FS) (p : String) : Option String :=
  (fs.entries.find? (fun e => e.1 = normPath p)).map (fun e => e.2)

/-- Embeds fs.writeFile: overwrites the entry at the normalized path when it
exists and appends a fresh entry otherwise. Writes in the model always
succeed (the in-memory map has no I/O errors), so the handlers' 500-on-write
branches are unreachable in the model. -/
def FS.writeFile (fs : FS) (p data : String) : FS :=
  let k := normPath p
  if fs.entries.any (fun e => e.1 = k) then
    ⟨fs.dirs, fs.entries.map (fun e => if e.1 = k then (k, data) else e)⟩
  else
    ⟨fs.dirs, fs.entries ++ [(k, data)]⟩

/-- Embeds fs.readdir: fails when the directory does not exist, otherwise
lists, in entry order, the names of the entries directly inside it. -/
def FS.readdir (fs : FS) (d : String) : Option (List String) :=
  let nd := normPath d
  if fs.dirs.contains nd then
    some (fs.entries.filterMap (fun e =>
      if nd.data.isPrefixOf e.1.data then
        let name := e.1.data.drop nd.data.length
        if name ≠ [] ∧ ¬ name.contains '/' then some (String.mk name) else none
      else none))
  else none

/-! ## JSON values and JSON.parse -/

/-- JSON values. Numeric literals are kept as their source text; no claim
computes with numbers. -/
inductive Json where
  | null : Json
  | bool (b : Bool) : Json
  | num (lit : String) : Json
  | str (s : String) : Json
  | arr (xs : List Json) : Json
  | obj (fields : List (String × Json)) : Json

/-- Whitespace accepted between JSON tokens. -/
def jsonWs (c : Char) : Bool :=
  c = ' ' ∨ c = '\n' ∨ c = '\t' ∨ c = '\r'

/-- Parses the body of a JSON string literal after the opening quote,
returning the decoded characters and the input after the closing quote.
Raw control characters and invalid escapes are rejected, as JSON.parse
rejects them. -/
def parseStringBody : List Char → Option (List Char × List Char)
  | [] => none
  | '"' :: rest => some ([], rest)
  | '\\' :: e :: rest =>
    match e with
    | '"' => (parseStringBody rest).map (fun r => ('"' :: r.1, r.2))
    | '\\' => (parseStringBody rest).map (fun r => ('\\' :: r.1, r.2))
    | '/' => (parseStringBody rest).map (fun r => ('/' :: r.1, r.2))
    | 'n' => (parseStringBody rest).map (fun r => ('\n' :: r.1, r.2))
    | 't' => (parseStringBody rest).map (fun r => ('\t' :: r.1, r.2))
    | 'r' => (parseStringBody rest).map (fun r => ('\r' :: r.1, r.2))
    | 'b' => (parseStringBody rest).map (fun r => (Char.ofNat 8 :: r.1, r.2))
    | 'f' => (parseStringBody rest).map (fun r => (Char.ofNat 12 :: r.1, r.2))
    | 'u' =>
      match rest with
      | h1 :: h2 :: h3 :: h4 :: rest2 =>
        match hexVal h1, hexVal h2, hexVal h3, hexVal h4 with
        | some a, some b, some c, some d =>
          (parseStringBody rest2).map (fun r =>
            (Char.ofNat (((a * 16 + b) * 16 + c) * 16 + d) :: r.1, r.2))
        | _, _, _, _ => none
      | _ => none
    | _ => none
  | c :: rest =>
    if c.toNat < 32 then none
    else (parseStringBody rest).map (fun r => (c :: r.1, r.2))

/-- One or more decimal digits, returning them and the remaining input. -/
def parseDigits : List Char → Option (List Char × List Char)
  | c :: rest =>
    if c.isDigit then
      match rest with
      | d :: _ =>
        if d.isDigit then
          (parseDigits rest).map (fun r => (c :: r.1, r.2))
        else some ([c], rest)
      | [] => some ([c], rest)
    else none
  | [] => none

/-- Parses a JSON numeric literal, returning its text and the rest of the
input. Enforces the JSON grammar: optional minus, integer part without a
superfluous leading zero, optional fraction, optional exponent. -/
def parseNumberLit (l : List Char) : Option (List Char × List Char) :=
  let core : List Char → Option (List Char × List Char) := fun l0 =>
    match parseDigits l0 with
    | none => none
    | some (ds, rest) =>
      if ds.length > 1 ∧ ds.headD '0' = '0' then none
      else
        let afterFrac :=
          match rest with
          | '.' :: r2 =>
            (parseDigits r2).map (fun (p : List Char × List Char) => ('.' :: p.1, p.2))
          | _ => some ([], rest)
        match afterFrac with
        | none => none
        | some (fracChars, rest2) =>
          let afterExp :=
            match rest2 with
            | e :: r3 =>
              if e = 'e' ∨ e = 'E' then
                match r3 with
                | s :: r4 =>
                  if s = '+' ∨ s = '-' then
                    (parseDigits r4).map (fun (p : List Char × List Char) => (e :: s :: p.1, p.2))
                  else (parseDigits r3).map (fun (p : List Char × List Char) => (e :: p.1, p.2))
                | [] => none
              else some ([], rest2)
            | [] => some ([], rest2)
          match afterExp with
          | none => none
          | some (expChars, rest3) => some (ds ++ fracChars ++ expChars, rest3)
  match l with
  | '-' :: r => (core r).map (fun p => ('-' :: p.1, p.2))
  | _ => core l

mutual

/-- Fuel-indexed JSON value parser (the fuel bounds nesting and sequence
length; jsonParse supplies ample fuel). Returns the value and remaining
input. -/
def parseJ : Nat → List Char → Option (Json × List Char)
  | 0, _ => none
  | fuel + 1, l =>
    let l := l.dropWhile jsonWs
    match l with
    | [] => none
    | 'n' :: 'u' :: 'l' :: 'l' :: rest => some (Json.null, rest)
    | 't' :: 'r' :: 'u' :: 'e' :: rest => some (Json.bool true, rest)
    | 'f' :: 'a' :: 'l' :: 's' :: 'e' :: rest => some (Json.bool false, rest)
    | '"' :: rest =>
      (parseStringBody rest).map (fun r => (Json.str (String.mk r.1), r.2))
    | '[' :: rest =>
      let rest := rest.dropWhile jsonWs
      match rest with
      | ']' :: rest2 => some (Json.arr [], rest2)
      | _ =>
        match parseJ fuel rest with
        | none => none
        | some (v, rest2) =>
          match parseArrTail fuel rest2 with
          | none => none
          | some (vs, rest3) => some (Json.arr (v :: vs), rest3)
    | '{' :: rest =>
      let rest := rest.dropWhile jsonWs
      match rest with
      | '}' :: rest2 => some (Json.obj [], rest2)
      | _ =>
        match parseMember fuel rest with
        | none => none
        | some (kv, rest2) =>
          match parseObjTail fuel rest2 with
          | none => none
          | some (kvs, rest3) => some (Json.obj (kv :: kvs), rest3)
    | _ =>
      (parseNumberLit l).map (fun r => (Json.num (String.mk r.1), r.2))

/-- Parses one key/value member of a JSON object. -/
def parseMember : Nat → List Char → Option ((String × Json) × List Char)
  | 0, _ => none
  | fuel + 1, l =>
    let l := l.dropWhile jsonWs
    match l with
    | '"' :: rest =>
      match parseStringBody rest with
      | none => none
      | some (k, rest2) =>
        let rest2 := rest2.dropWhile jsonWs
        match rest2 with
        | ':' :: rest3 =>
          (parseJ fuel rest3).map (fun r => ((String.mk k, r.1), r.2))
        | _ => none
    | _ => none

/-- Parses the continuation of a JSON array after its first element. -/
def parseArrTail : Nat → List Char → Option (List Json × List Char)
  | 0, _ => none
  | fuel + 1, l =>
    let l := l.dropWhile jsonWs
    match l with
    | ']' :: rest => some ([], rest)
    | ',' :: rest =>
      match parseJ fuel rest with
      | none => none
      | some (v, rest2) =>
        (parseArrTail fuel rest2).map (fun r => (v :: r.1, r.2))
    | _ => none

/-- Parses the continuation of a JSON object after its first member. -/
def parseObjTail : Nat → List Char → Option (List (String × Json) × List Char)
  | 0, _ => none
  | fuel + 1, l =>
    let l := l.dropWhile jsonWs
    match l with
    | '}' :: rest => some ([], rest)
    | ',' :: rest =>
      match parseMember fuel rest with
      | none => none
      | some (kv, rest2) =>
        (parseObjTail fuel rest2).map (fun r => (kv :: r.1, r.2))
    | _ => none

end

/-- Embeds JSON.parse: parses a complete JSON document, permitting only
trailing whitespace. -/
def jsonParse (s : String) : Option Json :=
  match parseJ (s.length + 1) s.data with
  | none => none
  | some (v, rest) => if rest.dropWhile jsonWs = [] then some v else none

/-- JavaScript property access on a parsed JSON value: yields the field of an
object when present. -/
def Json.getField : Json → String → Option Json
  | Json.obj fields, k => (fields.find? (fun f => f.1 = k)).map (fun f => f.2)
  | _, _ => none

mutual

/-- JavaScript string coercion of a value produced by evaluating a template
expression (String.prototype.replace stringifies the callback result). -/
def jsDisplay : Json → String
  | Json.null => "null"
  | Json.bool true => "true"
  | Json.bool false => "false"
  | Json.num lit => lit
  | Json.str s => s
  | Json.arr xs => String.intercalate "," (jsDisplayList xs)
  | Json.obj _ => "[object Object]"

/-- String coercions of a list of values, used for JavaScript array
stringification. -/
def jsDisplayList : List Json → List String
  | [] => []
  | x :: xs => jsDisplay x :: jsDisplayList xs

end

/-! ## Template engine (src/template.js)

render looks the template up in the store and replaces every match of the
JavaScript regular expression matching placeholder blocks
(open tag, a greedy run of non-newline characters as group 1, a space,
percent, close-angle terminator, with the global flag) by the evaluation of
the captured expression. The regex engine is embedded below: matches are
searched left to right, and at a match position the capture is greedy, so it
extends to the last terminator on the same line. -/

/-- The three characters opening a placeholder. -/
def openTag : List Char := '<' :: '%' :: '=' :: []

/-- The three characters terminating a placeholder (space, percent,
close angle bracket). -/
def closeTag : List Char := ' ' :: '%' :: '>' :: []

/-- Greedy backtracking search for the capture length: the largest j with
1 ≤ j ≤ n such that the terminator starts right after the first j
characters. Tries j = n first and descends, exactly as the greedy regex
engine backtracks. -/
def capSearch (after : List Char) : Nat → Option Nat
  | 0 => none
  | j + 1 =>
    if closeTag.isPrefixOf (after.drop (j + 1)) then some (j + 1)
    else capSearch after j

/-- Attempts a placeholder match anchored at the start of the input,
returning the capture and the input after the terminator. The capture may
not contain a newline (the dot of the pattern), hence the search bound is
the distance to the first newline. -/
def tryAt (s : List Char) : Option (List Char × List Char) :=
  if openTag.isPrefixOf s then
    let after := s.drop 3
    match capSearch after ((after.takeWhile (fun c => c ≠ '\n')).length) with
    | some j => some (after.take j, after.drop (j + 3))
    | none => none
  else none

/-- Finds the first placeholder match in the input: the text before the
match, the capture, and the text after the terminator. The scan tries each
successive start position, as the regex engine does. -/
def findMatch : List Char → Option (List Char × List Char × List Char)
  | [] => none
  | c :: cs =>
    match tryAt (c :: cs) with
    | some (cap, r) => some ([], cap, r)
    | none =>
      match findMatch cs with
      | some (p, cap, r) => some (c :: p, cap, r)
      | none => none

/-- Global replacement: repeatedly finds the next match and substitutes the
evaluation of its capture, continuing after the consumed terminator. Fuel
bounds the number of replacements; each match consumes at least seven
characters, so the input length is always ample fuel. -/
def replaceAllF (ev : List Char → List Char) : Nat → List Char → List Char
  | 0, s => s
  | fuel + 1, s =>
    match findMatch s with
    | none => s
    | some (p, cap, r) => p ++ ev cap ++ replaceAllF ev fuel r

/-- Embeds String.prototype.replace with the placeholder pattern and the
global flag, as used by render in src/template.js. -/
def jsReplaceAll (ev : List Char → List Char) (s : List Char) : List Char :=
  replaceAllF ev s.length s

/-- JavaScript whitespace characters stripped by expression evaluation. -/
def jsWsChar (c : Char) : Bool :=
  c = ' ' ∨ c = '\t' ∨ c = '\n' ∨ c = '\r'

/-- Strips leading and trailing whitespace from a character list. -/
def trimChars (l : List Char) : List Char :=
  ((l.dropWhile jsWsChar).reverse.dropWhile jsWsChar).reverse

/-- Embeds the evaluation performed by render in src/template.js: the code
runs eval on the captured expression with the declared context variable
bound to the JSON serialization of the render context. The repository's
templates use property accesses of the form context.name (per the spec's
description of the gallery and detail pages), so evaluation is modelled for
those expressions; any other expression is modelled as yielding undefined,
which stringifies as shown. -/
def evalContext (ctx : Json) (expr : String) : String :=
  let k := trimChars expr.data
  if ('c' :: 'o' :: 'n' :: 't' :: 'e' :: 'x' :: 't' :: '.' :: []).isPrefixOf k then
    match ctx.getField (String.mk (k.drop 8)) with
    | some v => jsDisplay v
    | none => "undefined"
  else "undefined"

/-- Embeds render from src/template.js over a template store: looks the
template up by name and substitutes every placeholder match. The absent-name
branch is none, modelling the TypeError thrown when the store lookup yields
undefined. -/
def render (templates : List (String × String)) (name : String) (ctx : Json) :
    Option String :=
  match (templates.find? (fun t => t.1 = name)).map (fun t => t.2) with
  | none => none
  | some t => some (String.mk (jsReplaceAll (fun cap => (evalContext ctx (String.mk cap)).data) t.data))

/-! ## Server state, requests and responses (src/server.js) -/

/-- The process-wide configuration parsed from config.json at boot: an object
with a title string. -/
structure Config where
  title : String

/-- Modelled from the spec: src/multipart.js is required by server.js but is
not under src/. Per the spec, the upload handler "parses a multipart body
into a structured request containing an uploaded file (name + bytes) and
optional text fields"; absent fields are modelled as empty strings, matching
the spec's statements that a missing file, title or description is reported
with a field-specific 400. -/
structure MultipartBody where
  imageFilename : String
  imageData : String
  title : String
  description : String

/-- An incoming HTTP request: method, raw URL (path, optional query string and
fragment), and for POST requests the multipart body as parsed. -/
structure Request where
  method : String
  url : String
  body : MultipartBody

/-- An HTTP response as assembled by the handlers: status code, status
message (the Node default "OK" when the handler never sets it), the
Content-Type header when set, and the body passed to res.end (empty when
res.end is called without argument). -/
structure Response where
  statusCode : Nat
  statusMessage : String
  contentType : Option String
  body : String

/-- What a dispatched request produces: a response, a crash (an uncaught
exception thrown in a handler, which kills the process and never answers the
request), or no response at all (a route that falls through every res.end,
leaving the connection hanging). -/
inductive Outcome where
  | res (r : Response) : Outcome
  | crash : Outcome
  | noResponse : Outcome

/-- The server's state: the in-memory config, the filesystem, the template
store populated by template.loadDir at boot, and the two stylesheet blobs
read once at boot (stylesheet from gallery.css, detailStylesheet from
details.css). -/
structure Server where
  config : Config
  fs : FS
  templates : List (String × String)
  stylesheet : String
  detailStylesheet : String

/-- Embeds imageNamesToTags from src/server.js: one anchor/image fragment per
filename, linking to detail/name with the name as image source and alt
text. -/
def imageNamesToTags (fileNames : List String) : List String :=
  fileNames.map (fun fileName =>
    "<a href=\"detail/" ++ fileName ++ "\"><img src=\"" ++ fileName ++
      "\" alt=\"" ++ fileName ++ "\"></a>")

/-- The render context built by buildGallery: the current config title and
the joined image tags. -/
def galleryContext (title imageTags : String) : Json :=
  Json.obj [("title", Json.str title), ("imageTags", Json.str imageTags)]

/-- Embeds buildGallery from src/server.js: joins the tags with the empty
separator and renders the gallery template with the current title. -/
def buildGallery (s : Server) (imageNames : List String) : Option String :=
  render s.templates "gallery.html"
    (galleryContext s.config.title (String.join (imageNamesToTags imageNames)))

/-- Embeds buildDetail from src/server.js: renders the detail template with
the parsed catalog data as context (the filename argument is unused in the
source). -/
def buildDetail (s : Server) (data : Json) : Option String :=
  render s.templates "detail.html" data

/-- Embeds serveGallery from src/server.js: lists the images directory,
answering 500 on a listing error and otherwise the rendered gallery page as
text/html; a failing render (template absent from the store) is the thrown
TypeError. -/
def serveGallery (s : Server) : Outcome :=
  match s.fs.readdir "images/" with
  | none => Outcome.res ⟨500, "Server error", none, ""⟩
  | some imageNames =>
    match buildGallery s imageNames with
    | none => Outcome.crash
    | some html => Outcome.res ⟨200, "OK", some "text/html", html⟩

/-- Embeds serveDetail from src/server.js: takes the part of the filename
before the first dot, reads the matching catalog JSON, answers 500 when the
read fails, and otherwise parses the JSON and renders the detail page. The
JSON.parse call is not guarded, so unparsable contents throw an uncaught
exception. -/
def serveDetail (s : Server) (filename : String) : Outcome :=
  let base := (splitOnChar '.' filename.data).headD []
  match s.fs.readFile ("catalog/" ++ String.mk base ++ ".json") with
  | none => Outcome.res ⟨500, "Server error", none, ""⟩
  | some data =>
    match jsonParse data with
    | none => Outcome.crash
    | some v =>
      match buildDetail s v with
      | none => Outcome.crash
      | some html => Outcome.res ⟨200, "OK", some "text/html", html⟩

/-- Embeds serveImage from src/server.js: reads images/ concatenated with the
percent-decoded name, answering 404 on a read error and otherwise the bytes
with the image content type. -/
def serveImage (s : Server) (fileName : String) : Outcome :=
  match s.fs.readFile ("images/" ++ decodeURIComponent fileName) with
  | none => Outcome.res ⟨404, "Resource not found", none, ""⟩
  | some data => Outcome.res ⟨200, "OK", some "image/*", data⟩

/-- Lower-case hexadecimal digit character for a value below sixteen. -/
def hexDigitChar (n : Nat) : Char :=
  if n < 10 then Char.ofNat ('0'.toNat + n) else Char.ofNat ('a'.toNat + n - 10)

/-- The JSON string escaping performed by JSON.stringify on a string value:
quotes around the text, backslash escapes for the quote, the backslash and
control characters. -/
def jsonEscapeChar (c : Char) : List Char :=
  if c = '"' then '\\' :: '"' :: []
  else if c = '\\' then '\\' :: '\\' :: []
  else if c = '\n' then '\\' :: 'n' :: []
  else if c = '\r' then '\\' :: 'r' :: []
  else if c = '\t' then '\\' :: 't' :: []
  else if c.toNat = 8 then '\\' :: 'b' :: []
  else if c.toNat = 12 then '\\' :: 'f' :: []
  else if c.toNat < 32 then
    '\\' :: 'u' :: '0' :: '0' :: hexDigitChar (c.toNat / 16) :: hexDigitChar (c.toNat % 16) :: []
  else [c]

/-- JSON.stringify of a string value. -/
def jsonStringifyString (s : String) : String :=
  String.mk ('"' :: (s.data.flatMap jsonEscapeChar) ++ '"' :: [])

/-- JSON.stringify of the config object, as written to config.json by
handleRequest. -/
def jsonStringifyConfig (c : Config) : String :=
  "\x7b\"title\":" ++ jsonStringifyString c.title ++ "\x7d"

/-- The catalog entry text hand-assembled by string concatenation in
uploadJSON of src/server.js. -/
def catalogEntryText (b : MultipartBody) : String :=
  let iFileName := "images/" ++ b.imageFilename
  let qFileName := "\x27" ++ iFileName ++ "\x27"
  "\x7b\"image\" : \x7b \"imageName\" : \"" ++ iFileName ++
    "\", \"imageTag\" : \"<a href=" ++ qFileName ++ "><img src=" ++ qFileName ++
    " alt=" ++ qFileName ++ "></a>\", \"title\" : \"" ++ b.title ++
    "\", \"description\" : \"" ++ b.description ++ "\" \x7d\x7d"

/-- Embeds the combined effect of uploadImage and uploadJSON from
src/server.js, both of which handleRequest invokes on a POST. Both parse the
same request body. uploadImage writes the image whenever a filename is
present; uploadJSON writes the hand-assembled catalog entry whenever title
and description are both nonempty. The observable response follows the event
ordering of the source: each validation 400 is sent synchronously when body
parsing completes (uploadImage's parse callback is registered first, so its
400 comes first), while the success path answers only later, after the
asynchronous image write, with the gallery page; so when any validation
fails its 400 is the response the client sees. -/
def handlePost (s : Server) (b : MultipartBody) : Outcome × FS :=
  let fs1 :=
    if b.imageFilename = "" then s.fs
    else s.fs.writeFile ("images/" ++ b.imageFilename) b.imageData
  let fs2 :=
    if b.title = "" ∨ b.description = "" then fs1
    else
      let base := (splitOnChar '.' b.imageFilename.data).headD []
      fs1.writeFile ("catalog/" ++ String.mk base ++ ".json") (catalogEntryText b)
  if b.imageFilename = "" then
    (Outcome.res ⟨400, "No file specified", none, "No file specified"⟩, fs2)
  else if b.title = "" then
    (Outcome.res ⟨400, "No title specified", none, "No title specified"⟩, fs2)
  else if b.description = "" then
    (Outcome.res ⟨400, "No description specified", none, "No description specified"⟩, fs2)
  else
    (serveGallery { s with fs := fs2 }, fs2)

/-- Embeds url.parse as used by handleRequest: the fragment (everything from
the first hash) is cut off, then the remainder splits at the first question
mark into pathname and query; the query is none when no question mark is
present. -/
def splitUrl (u : String) : String × Option String :=
  (String.mk (breakAtChar '?' (u.data.takeWhile (fun c => c ≠ '#'))).1,
   ((breakAtChar '?' (u.data.takeWhile (fun c => c ≠ '#'))).2).map String.mk)

/-- Greedy backtracking for the title regex: after the literal title= text,
the greedy dot-run is followed by end of input or an ampersand; the largest
capture length wins. -/
def titleCapSearch (after : List Char) : Nat → Option Nat
  | 0 => none
  | j + 1 =>
    if after.drop (j + 1) = [] ∨ (after.drop (j + 1)).head? = some '&' then some (j + 1)
    else titleCapSearch after j

/-- Scans the query string for the first position where the title regex of
handleRequest matches, returning capture group 1. -/
def execTitleAux : List Char → Option (List Char)
  | [] => none
  | c :: cs =>
    let here :=
      if ('t' :: 'i' :: 't' :: 'l' :: 'e' :: '=' :: []).isPrefixOf (c :: cs) then
        let after := (c :: cs).drop 6
        match titleCapSearch after ((after.takeWhile (fun x => x ≠ '\n')).length) with
        | some j => some (after.take j)
        | none => none
      else none
    match here with
    | some cap => some cap
    | none => execTitleAux cs

/-- Embeds the exec of the title regex in handleRequest of src/server.js on
the query string, yielding the first capture group when the regex matches.
The capture of a successful match is never empty, so the source's extra
truthiness test on it coincides with match success. -/
def execTitle (q : String) : Option String :=
  (execTitleAux q.data).map String.mk

/-- The title side effect at the top of handleRequest: when the URL has a
nonempty query string matching the title regex, the in-memory config title
becomes the percent-decoded capture and config.json is rewritten with the
serialized config. -/
def updateTitle (s : Server) (query : Option String) : Server :=
  match query with
  | none => s
  | some q =>
    if q = "" then s
    else
      match execTitle q with
      | none => s
      | some v =>
        let c : Config := ⟨decodeURIComponent v⟩
        { s with config := c, fs := s.fs.writeFile "config.json" (jsonStringifyConfig c) }

/-- The switch of handleRequest in src/server.js, after the title side
effect: dispatches on the parsed pathname. The root and gallery paths serve
the gallery on GET and run both upload handlers on POST (any other method
falls through with no response); gallery.css answers the boot stylesheet;
paths whose second segment is detail dispatch on the third segment (the
images case serves the fourth segment as an image, details.css answers the
detail stylesheet, details.json and gallery.json fall through with no
response, a missing third segment is the TypeError thrown by split on
undefined, and anything else is a detail page); every other path is served
as an image using the full raw URL. This function is the inner switch on
the third path segment; no branch of it mutates the server state. -/
def detailDispatch (s : Server) (pathParts : List (List Char)) : Outcome :=
  match pathParts[2]? with
  | none => Outcome.crash
  | some seg =>
    if String.mk seg = "images" then
      serveImage s (String.mk (pathParts[3]?.getD "undefined".data))
    else if String.mk seg = "details.css" then
      Outcome.res ⟨200, "OK", some "text/css", s.detailStylesheet⟩
    else if String.mk seg = "details.json" ∨ String.mk seg = "gallery.json" then
      Outcome.noResponse
    else serveDetail s (String.mk seg)

/-- The outer switch of handleRequest in src/server.js, after the title side
effect, dispatching on the parsed pathname as described at
detailDispatch. -/
def dispatch (s : Server) (req : Request) (pathname : String) : Outcome × Server :=
  if pathname = "/" ∨ pathname = "/gallery" then
    if req.method = "GET" then (serveGallery s, s)
    else if req.method = "POST" then
      let r := handlePost s req.body
      (r.1, { s with fs := r.2 })
    else (Outcome.noResponse, s)
  else if pathname = "/gallery.css" then
    (Outcome.res ⟨200, "OK", some "text/css", s.stylesheet⟩, s)
  else if (splitOnChar '/' pathname.data)[1]?
      = some ('d' :: 'e' :: 't' :: 'a' :: 'i' :: 'l' :: []) then
    (detailDispatch s (splitOnChar '/' pathname.data), s)
  else (serveImage s req.url, s)

/-- Embeds handleRequest from src/server.js: parses the URL, applies the
title side effect, then dispatches on the pathname. -/
def handleRequest (s : Server) (req : Request) : Outcome × Server :=
  let parts := splitUrl req.url
  dispatch (updateTitle s parts.2) req parts.1

/-! ## Helper lemmas: strings, paths and the filesystem model -/

/-- String equality is equality of the underlying character lists. -/
theorem strEq_iff {a b : String} : a = b ↔ a.data = b.data :=
  ⟨fun h => h ▸ rfl, String.ext⟩

/-- Collapsing slashes leaves a non-slash head character in place. -/
theorem collapse_cons {c : Char} (l : List Char) (h : c ≠ '/') :
    collapseSlashes (c :: l) = c :: collapseSlashes l := by
  simp [collapseSlashes, collapseAux, h]

/-- A doubled slash collapses to a single one. -/
theorem collapse_dslash (l : List Char) :
    collapseSlashes ('/' :: '/' :: l) = collapseSlashes ('/' :: l) := by
  simp [collapseSlashes, collapseAux]

/-- Collapsing slashes passes over a slash-free prefix unchanged. -/
theorem collapse_append_no_slash (a l : List Char) (h : ∀ c ∈ a, c ≠ '/') :
    collapseSlashes (a ++ l) = a ++ collapseSlashes l := by
  induction a with
  | nil => rfl
  | cons c cs ih =>
    have hc : c ≠ '/' := h c (by simp)
    have ih' := ih (fun x hx => h x (by simp [hx]))
    simp only [List.cons_append, collapse_cons _ hc, ih']

/-- readFile only depends on the normalized path. -/
theorem readFile_congr (fs : FS) {p q : String} (h : normPath p = normPath q) :
    fs.readFile p = fs.readFile q := by
  simp only [FS.readFile, h]

/-- The doubled slash produced by concatenating a leading-slash URL onto the
images/ prefix resolves to the plain images path. -/
theorem normPath_images_dslash (f : String) :
    normPath ("images/" ++ ("/" ++ f)) = normPath ("images/" ++ f) := by
  have hns : ∀ c ∈ ('i' :: 'm' :: 'a' :: 'g' :: 'e' :: 's' :: []), c ≠ '/' := by decide
  apply String.ext
  show collapseSlashes ("images/" ++ ("/" ++ f)).data = collapseSlashes ("images/" ++ f).data
  rw [String.data_append, String.data_append, String.data_append]
  show collapseSlashes (('i' :: 'm' :: 'a' :: 'g' :: 'e' :: 's' :: []) ++ '/' :: '/' :: f.data)
      = collapseSlashes (('i' :: 'm' :: 'a' :: 'g' :: 'e' :: 's' :: []) ++ '/' :: f.data)
  rw [collapse_append_no_slash _ _ hns, collapse_append_no_slash _ _ hns, collapse_dslash]

/-- A path under images/ never normalizes to config.json. -/
theorem normPath_images_ne_config (x : String) :
    normPath ("images/" ++ x) ≠ "config.json" := by
  intro h
  have hd : collapseSlashes (('i' :: 'm' :: 'a' :: 'g' :: 'e' :: 's' :: []) ++ '/' :: x.data)
      = "config.json".data := by
    have := strEq_iff.mp h
    rw [← this]
    show _ = collapseSlashes ("images/" ++ x).data
    rw [String.data_append]
    rfl
  rw [collapse_append_no_slash _ _ (by decide)] at hd
  exact absurd (congrArg (fun l => l.head?) hd) (by simp)

/-- A path under catalog/ never normalizes to config.json. -/
theorem normPath_catalog_ne_config (x : String) :
    normPath ("catalog/" ++ x) ≠ "config.json" := by
  intro h
  have hd : collapseSlashes (('c' :: 'a' :: 't' :: 'a' :: 'l' :: 'o' :: 'g' :: []) ++ '/' :: x.data)
      = "config.json".data := by
    have := strEq_iff.mp h
    rw [← this]
    show _ = collapseSlashes ("catalog/" ++ x).data
    rw [String.data_append]
    rfl
  rw [collapse_append_no_slash _ _ (by decide)] at hd
  have := congrArg (fun l => l.get? 1) hd
  simp at this

/-- Updating the entry at an existing key makes lookups of that key yield the
new value. -/
theorem find_update_hit (k d : String) :
    ∀ l : List (String × String), l.any (fun e => e.1 = k) = true →
      List.find? (fun e => e.1 = k) (l.map (fun e => if e.1 = k then (k, d) else e))
        = some (k, d) := by
  intro l
  induction l with
  | nil => intro h; simp at h
  | cons e rest ih =>
    intro h
    by_cases he : e.1 = k
    · simp [List.find?, he]
    · have hr : rest.any (fun e => e.1 = k) = true := by
        simpa [List.any_cons, he] using h
      simpa [List.find?, he] using ih hr

/-- Updating the entry at one key does not disturb lookups of another key. -/
theorem find_update_miss (k d nq : String) (h : nq ≠ k) :
    ∀ l : List (String × String),
      List.find? (fun e => e.1 = nq) (l.map (fun e => if e.1 = k then (k, d) else e))
        = List.find? (fun e => e.1 = nq) l := by
  intro l
  induction l with
  | nil => rfl
  | cons e rest ih =>
    by_cases he : e.1 = k
    · have hne : ¬ (k = nq) := fun hc => h hc.symm
      have hne2 : ¬ (e.1 = nq) := by rw [he]; exact hne
      simp [List.find?, he, hne, hne2, ih]
    · simp only [List.map_cons, if_neg he, List.find?]
      by_cases hq : e.1 = nq
      · simp [hq]
      · simp [hq, ih]

/-- A lookup over an appended singleton: hits the appended pair exactly when
no earlier entry matched and the keys agree. -/
theorem find_append_single (k d nq : String) :
    ∀ l : List (String × String), l.any (fun e => e.1 = k) = false →
      List.find? (fun e => e.1 = nq) (l ++ [(k, d)])
        = if nq = k then some (k, d) else List.find? (fun e => e.1 = nq) l := by
  intro l
  induction l with
  | nil =>
    intro _
    by_cases hq : nq = k
    · simp [List.find?, hq]
    · have : ¬ (k = nq) := fun hc => hq hc.symm
      simp [List.find?, hq, this]
  | cons e rest ih =>
    intro h
    have he : ¬ (e.1 = k) := by
      intro hc
      simp [List.any_cons, hc] at h
    have hr : rest.any (fun e => e.1 = k) = false := by
      simp only [List.any_cons, Bool.or_eq_false_iff] at h
      exact h.2
    by_cases hq : e.1 = nq
    · have hnk : nq ≠ k := by rw [← hq]; exact he
      simp [List.find?, hq, hnk]
    · simp only [List.cons_append, List.find?]
      simp [hq, ih hr]

/-- Writing a path and reading any path with the same normalization yields
the written contents. -/
theorem readFile_writeFile_same (fs : FS) (p q d : String)
    (h : normPath q = normPath p) :
    (fs.writeFile p d).readFile q = some d := by
  unfold FS.writeFile FS.readFile
  rw [h]
  by_cases hany : fs.entries.any (fun e => e.1 = normPath p) = true
  · rw [if_pos hany]
    simp [find_update_hit (normPath p) d fs.entries hany]
  · rw [if_neg hany]
    have hf : fs.entries.any (fun e => e.1 = normPath p) = false :=
      Bool.eq_false_iff.mpr hany
    simp [find_append_single (normPath p) d (normPath p) fs.entries hf]

/-- Writing a path leaves reads of paths with a different normalization
unchanged. -/
theorem readFile_writeFile_other (fs : FS) (p q d : String)
    (h : normPath q ≠ normPath p) :
    (fs.writeFile p d).readFile q = fs.readFile q := by
  unfold FS.writeFile FS.readFile
  by_cases hany : fs.entries.any (fun e => e.1 = normPath p) = true
  · rw [if_pos hany]
    simp [find_update_miss (normPath p) d (normPath q) h fs.entries]
  · rw [if_neg hany]
    have hf : fs.entries.any (fun e => e.1 = normPath p) = false :=
      Bool.eq_false_iff.mpr hany
    simp [find_append_single (normPath p) d (normPath q) fs.entries hf, h]

/-! ## Helper lemmas: URL parsing and percent decoding -/

/-- Percent decoding leaves percent-free text unchanged. -/
theorem percentDecode_no_pct (l : List Char) (h : ∀ c ∈ l, c ≠ '%') :
    percentDecode l = l := by
  induction l with
  | nil => rfl
  | cons c cs ih =>
    have hc : c ≠ '%' := h c (by simp)
    have ih' := ih (fun x hx => h x (by simp [hx]))
    match cs, ih' with
    | [], _ => rfl
    | [d], _ => simp [percentDecode]
    | a :: b :: rest, ih' => simpa [percentDecode, hc] using ih'

/-- decodeURIComponent leaves percent-free strings unchanged. -/
theorem decode_no_pct (s : String) (h : ∀ c ∈ s.data, c ≠ '%') :
    decodeURIComponent s = s := by
  apply String.ext
  simpa [decodeURIComponent] using percentDecode_no_pct s.data h

/-- breakAtChar on separator-free input returns the whole input and no
remainder. -/
theorem breakAt_no_sep (sep : Char) (l : List Char) (h : ∀ c ∈ l, c ≠ sep) :
    breakAtChar sep l = (l, none) := by
  induction l with
  | nil => rfl
  | cons c cs ih =>
    have hc : c ≠ sep := h c (by simp)
    have ih' := ih (fun x hx => h x (by simp [hx]))
    simp [breakAtChar, hc, ih']

/-- breakAtChar cuts at the first separator occurrence. -/
theorem breakAt_found (sep : Char) (a b : List Char) (h : ∀ c ∈ a, c ≠ sep) :
    breakAtChar sep (a ++ sep :: b) = (a, some b) := by
  induction a with
  | nil => simp [breakAtChar]
  | cons c cs ih =>
    have hc : c ≠ sep := h c (by simp)
    have ih' := ih (fun x hx => h x (by simp [hx]))
    simp [breakAtChar, hc, ih']

/-- A URL without question mark or hash parses to itself with no query. -/
theorem splitUrl_plain (u : String) (h : ∀ c ∈ u.data, c ≠ '?' ∧ c ≠ '#') :
    splitUrl u = (u, none) := by
  have h1 : u.data.takeWhile (fun c => c ≠ '#') = u.data :=
    List.takeWhile_eq_self_iff.mpr (by intro x hx; simpa using (h x hx).2)
  have h2 : breakAtChar '?' u.data = (u.data, none) :=
    breakAt_no_sep _ _ (fun c hc => (h c hc).1)
  unfold splitUrl
  rw [h1, h2]
  rfl

/-- A URL of the form path, question mark, query (hash-free, with a
question-mark-free path) parses into that path and query. -/
theorem splitUrl_query (p q : String)
    (hp : ∀ c ∈ p.data, c ≠ '?' ∧ c ≠ '#') (hq : ∀ c ∈ q.data, c ≠ '#') :
    splitUrl (p ++ "?" ++ q) = (p, some q) := by
  have hdata : (p ++ "?" ++ q).data = p.data ++ '?' :: q.data := by
    rw [String.data_append, String.data_append, List.append_assoc]
    rfl
  have h1 : (p.data ++ '?' :: q.data).takeWhile (fun c => c ≠ '#')
      = p.data ++ '?' :: q.data := by
    apply List.takeWhile_eq_self_iff.mpr
    intro x hx
    simp only [List.mem_append, List.mem_cons] at hx
    rcases hx with h1 | h2 | h3
    · simpa using (hp x h1).2
    · simp [h2]
    · simpa using hq x h3
  have h2 : breakAtChar '?' (p.data ++ '?' :: q.data) = (p.data, some q.data) :=
    breakAt_found _ _ _ (fun c hc => (hp c hc).1)
  unfold splitUrl
  rw [hdata, h1, h2]
  rfl

/-- splitOnChar of separator-free input is the single whole chunk. -/
theorem splitOn_no_sep (sep : Char) (l : List Char) (h : ∀ c ∈ l, c ≠ sep) :
    splitOnChar sep l = [l] := by
  induction l with
  | nil => rfl
  | cons c cs ih =>
    have hc : c ≠ sep := h c (by simp)
    have ih' := ih (fun x hx => h x (by simp [hx]))
    simp [splitOnChar, hc, ih']

/-- splitOnChar cuts the first chunk at the first separator. -/
theorem splitOn_first (sep : Char) (a b : List Char) (h : ∀ c ∈ a, c ≠ sep) :
    splitOnChar sep (a ++ sep :: b) = a :: splitOnChar sep b := by
  induction a with
  | nil => simp [splitOnChar]
  | cons c cs ih =>
    have hc : c ≠ sep := h c (by simp)
    have ih' := ih (fun x hx => h x (by simp [hx]))
    rw [List.cons_append, splitOnChar.eq_def]
    simp only [if_neg hc]
    rw [ih']

/-! ## Helper lemmas: the title side effect and state preservation -/

/-- updateTitle with no query is the identity. -/
theorem updateTitle_none (s : Server) : updateTitle s none = s := rfl

/-- updateTitle when the query does not match the title regex is the
identity. -/
theorem updateTitle_no_match (s : Server) (q : String) (h : execTitle q = none) :
    updateTitle s (some q) = s := by
  unfold updateTitle
  by_cases hq : q = ""
  · simp [hq]
  · simp [hq, h]

/-- updateTitle when the regex matches: the config becomes the decoded
capture and config.json is rewritten. -/
theorem updateTitle_match (s : Server) (q v : String) (hq : q ≠ "")
    (h : execTitle q = some v) :
    updateTitle s (some q) =
      { s with config := ⟨decodeURIComponent v⟩,
               fs := s.fs.writeFile "config.json"
                 (jsonStringifyConfig ⟨decodeURIComponent v⟩) } := by
  unfold updateTitle
  simp [hq, h]

/-- updateTitle only ever touches the config and config.json: the template
store and stylesheets survive, and so does every file whose normalized path
is not config.json. -/
theorem updateTitle_preserves (s : Server) (q : Option String) :
    (updateTitle s q).templates = s.templates ∧
    (updateTitle s q).stylesheet = s.stylesheet ∧
    (updateTitle s q).detailStylesheet = s.detailStylesheet ∧
    ∀ p : String, normPath p ≠ "config.json" →
      (updateTitle s q).fs.readFile p = s.fs.readFile p := by
  unfold updateTitle
  match q with
  | none => exact ⟨rfl, rfl, rfl, fun p _ => rfl⟩
  | some qs =>
    by_cases hq : qs = ""
    · simp only [hq, if_pos rfl]
      exact ⟨rfl, rfl, rfl, fun p _ => rfl⟩
    · simp only [if_neg hq]
      match execTitle qs with
      | none => exact ⟨rfl, rfl, rfl, fun p _ => rfl⟩
      | some v =>
        refine ⟨rfl, rfl, rfl, fun p hp => ?_⟩
        apply readFile_writeFile_other
        have hc : normPath "config.json" = "config.json" := rfl
        rw [hc]
        exact hp

/-- String concatenation is associative (via the character lists). -/
theorem str_append_assoc (a b c : String) : a ++ b ++ c = a ++ (b ++ c) := by
  apply String.ext
  simp [String.data_append, List.append_assoc]

/-- Writing under images/ never touches config.json. -/
theorem write_images_preserves_config (fs : FS) (x data : String) :
    (fs.writeFile ("images/" ++ x) data).readFile "config.json"
      = fs.readFile "config.json" := by
  apply readFile_writeFile_other
  have hc : normPath "config.json" = "config.json" := rfl
  rw [hc]
  exact Ne.symm (normPath_images_ne_config x)

/-- Writing under catalog/ never touches config.json. -/
theorem write_catalog_preserves_config (fs : FS) (x y data : String) :
    (fs.writeFile ("catalog/" ++ x ++ y) data).readFile "config.json"
      = fs.readFile "config.json" := by
  apply readFile_writeFile_other
  have hc : normPath "config.json" = "config.json" := rfl
  rw [hc, str_append_assoc]
  exact Ne.symm (normPath_catalog_ne_config (x ++ y))

/-- The combined upload handlers never touch config.json. -/
theorem handlePost_preserves_config_file (s : Server) (b : MultipartBody) :
    ((handlePost s b).2).readFile "config.json" = s.fs.readFile "config.json" := by
  unfold handlePost
  by_cases hf : b.imageFilename = "" <;> by_cases ht : b.title = "" <;>
    by_cases hd : b.description = "" <;>
      simp [hf, ht, hd, write_images_preserves_config, write_catalog_preserves_config]

/-- The dispatch switch never changes the config and never rewrites
config.json. -/
theorem dispatch_preserves_config (s : Server) (req : Request) (p : String) :
    ((dispatch s req p).2).config = s.config ∧
    ((dispatch s req p).2).fs.readFile "config.json"
      = s.fs.readFile "config.json" := by
  unfold dispatch
  by_cases h1 : p = "/" ∨ p = "/gallery"
  · simp only [if_pos h1]
    by_cases hg : req.method = "GET"
    · simp [hg]
    · by_cases hp : req.method = "POST"
      · simp [hg, hp, handlePost_preserves_config_file]
      · simp [hg, hp]
  · simp only [if_neg h1]
    by_cases h2 : p = "/gallery.css"
    · simp [h2]
    · simp only [if_neg h2]
      by_cases h3 : (splitOnChar '/' p.data)[1]?
          = some ('d' :: 'e' :: 't' :: 'a' :: 'i' :: 'l' :: [])
      · simp [h3]
      · simp [h3]

/-! ## Helper lemmas: the template engine

A template whose placeholders each sit on their own line (in the sense of
wfChunks below) decomposes unambiguously into literal text and placeholder
expressions; on this class the greedy global replacement substitutes each
placeholder exactly once, in order, leaving the literals unchanged. -/

/-- Builds a template from a leading literal and a list of
(expression, trailing literal) chunks, each expression wrapped in
placeholder tags. -/
def assemble : List Char → List (List Char × List Char) → List Char
  | lit0, [] => lit0
  | lit0, (e, l) :: rest => lit0 ++ (openTag ++ (e ++ (closeTag ++ assemble l rest)))

/-- The intended substitution result for an assembled template: each
expression replaced by its evaluation, the literals untouched. -/
def substituted (ev : List Char → List Char) :
    List Char → List (List Char × List Char) → List Char
  | lit0, [] => lit0
  | lit0, (e, l) :: rest => lit0 ++ (ev e ++ substituted ev l rest)

/-- Well-formedness of the chunks: each expression is nonempty, free of
newlines; each trailing literal is percent-free and starts with a newline
(the final literal may instead be empty). Under these conditions the greedy
regex cannot run one placeholder into the next. -/
def wfChunks : List (List Char × List Char) → Bool
  | [] => true
  | (e, l) :: rest =>
    (e ≠ [] ∧ ('\n' ∉ e) ∧ ('%' ∉ l) ∧
      (l.head? = some '\n' ∨ (l = [] ∧ rest = []))) && wfChunks rest

/-- A percent-free text contains no placeholder match. -/
theorem findMatch_none_of_no_pct (l : List Char) (h : '%' ∉ l) :
    findMatch l = none := by
  induction l with
  | nil => rfl
  | cons c cs ih =>
    have ht : tryAt (c :: cs) = none := by
      unfold tryAt
      rw [if_neg ?npre]
      case npre =>
        intro hpre
        obtain ⟨t, hpre⟩ := List.isPrefixOf_iff_prefix.mp hpre
        have : '%' ∈ c :: cs := by
          rw [← hpre]
          simp [openTag]
        exact h this
    have ih' : findMatch cs = none := ih (fun hm => h (by simp [hm]))
    simp [findMatch, ht, ih']

/-- takeWhile passes over a prefix all of whose elements satisfy the
predicate. -/
theorem takeWhile_append_all (p : Char → Bool) (a b : List Char)
    (h : ∀ c ∈ a, p c) : (a ++ b).takeWhile p = a ++ b.takeWhile p := by
  induction a with
  | nil => simp
  | cons c cs ih =>
    simp [List.takeWhile, h c (by simp), ih (fun x hx => h x (by simp [hx]))]

/-- The greedy backtracking search hits exactly the length of the expression
when the terminator follows it and the rest of the line beyond the
terminator is exhausted. -/
theorem capSearch_exact (e rest : List Char) (he : e ≠ [])
    (hr : rest.head? = some '\n' ∨ rest = []) :
    capSearch (e ++ (closeTag ++ rest)) (e.length + 3) = some e.length := by
  have hdropk : ∀ i : Nat, (e ++ (closeTag ++ rest)).drop (e.length + i)
      = (closeTag ++ rest).drop i := by
    intro i
    have h0 : (e ++ (closeTag ++ rest)).drop e.length = closeTag ++ rest :=
      List.drop_left e (closeTag ++ rest)
    calc (e ++ (closeTag ++ rest)).drop (e.length + i)
        = ((e ++ (closeTag ++ rest)).drop e.length).drop i := by
          rw [List.drop_drop, Nat.add_comm]
      _ = (closeTag ++ rest).drop i := by rw [h0]
  have hfail3 : closeTag.isPrefixOf ((closeTag ++ rest).drop 3) = false := by
    have : (closeTag ++ rest).drop 3 = rest := List.drop_left closeTag rest
    rw [this]
    rcases hr with h | h
    · cases rest with
      | nil => simp at h
      | cons x t =>
        have hx : x = '\n' := by simpa using h
        subst hx
        simp [closeTag, List.isPrefixOf]
    · simp [h, closeTag, List.isPrefixOf]
  have hfail2 : closeTag.isPrefixOf ((closeTag ++ rest).drop 2) = false := by
    simp [closeTag, List.isPrefixOf]
  have hfail1 : closeTag.isPrefixOf ((closeTag ++ rest).drop 1) = false := by
    simp [closeTag, List.isPrefixOf]
  have hhit : closeTag.isPrefixOf ((closeTag ++ rest).drop 0) = true := by
    simp only [List.drop_zero]
    exact List.isPrefixOf_iff_prefix.mpr ⟨rest, rfl⟩
  obtain ⟨j, hj⟩ : ∃ j, e.length = j + 1 := by
    cases e with
    | nil => exact absurd rfl he
    | cons x xs => exact ⟨xs.length, rfl⟩
  rw [hj]
  show capSearch _ ((j + 3) + 1) = some (j + 1)
  rw [capSearch]
  have e1 : (j + 3) + 1 = e.length + 3 := by omega
  rw [e1, hdropk 3, hfail3]
  simp only [Bool.false_eq_true, if_false]
  show capSearch _ ((j + 2) + 1) = some (j + 1)
  rw [capSearch]
  have e2 : (j + 2) + 1 = e.length + 2 := by omega
  rw [e2, hdropk 2, hfail2]
  simp only [Bool.false_eq_true, if_false]
  show capSearch _ ((j + 1) + 1) = some (j + 1)
  rw [capSearch]
  have e3 : (j + 1) + 1 = e.length + 1 := by omega
  rw [e3, hdropk 1, hfail1]
  simp only [Bool.false_eq_true, if_false]
  rw [capSearch]
  have e4 : j + 1 = e.length + 0 := by omega
  rw [e4, hdropk 0, hhit]
  simp only [if_true]

/-- A placeholder match anchored at a well-separated placeholder yields its
expression and the text after the terminator. -/
theorem tryAt_complete (e rest : List Char) (he : e ≠ []) (hn : '\n' ∉ e)
    (hr : rest.head? = some '\n' ∨ rest = []) :
    tryAt ('<' :: '%' :: '=' :: (e ++ (closeTag ++ rest))) = some (e, rest) := by
  unfold tryAt
  have hpre : openTag.isPrefixOf ('<' :: '%' :: '=' :: (e ++ (closeTag ++ rest))) = true :=
    List.isPrefixOf_iff_prefix.mpr ⟨e ++ (closeTag ++ rest), rfl⟩
  rw [if_pos hpre]
  have hdrop3 : ('<' :: '%' :: '=' :: (e ++ (closeTag ++ rest))).drop 3
      = e ++ (closeTag ++ rest) := rfl
  rw [hdrop3]
  have htw : ((e ++ (closeTag ++ rest)).takeWhile (fun c => c ≠ '\n')).length
      = e.length + 3 := by
    rw [takeWhile_append_all _ e _ ?he]
    case he =>
      intro c hc
      simp only [decide_eq_true_eq]
      intro h
      exact hn (h ▸ hc)
    rw [takeWhile_append_all _ closeTag _ (by decide)]
    have hrw : rest.takeWhile (fun c => decide (c ≠ '\n')) = [] := by
      rcases hr with h | h
      · cases rest with
        | nil => rfl
        | cons x t =>
          have hx : x = '\n' := by simpa using h
          subst hx
          simp [List.takeWhile]
      · simp [h]
    rw [hrw]
    simp [closeTag]
  have htake : (e ++ (closeTag ++ rest)).take e.length = e := List.take_left e _
  have hdropE : (e ++ (closeTag ++ rest)).drop (e.length + 3) = rest := by
    rw [← List.drop_drop, List.drop_left]
    rfl
  simp only [htw, capSearch_exact e rest he hr, htake, hdropE]

/-- Searching an assembled template whose leading literal is percent-free
finds exactly the first placeholder. -/
theorem findMatch_assembled (lit e rest : List Char) (hl : '%' ∉ lit)
    (he : e ≠ []) (hn : '\n' ∉ e) (hr : rest.head? = some '\n' ∨ rest = []) :
    findMatch (lit ++ ('<' :: '%' :: '=' :: (e ++ (closeTag ++ rest))))
      = some (lit, e, rest) := by
  induction lit with
  | nil =>
    rw [List.nil_append, findMatch, tryAt_complete e rest he hn hr]
  | cons c cs ih =>
    have hl' : '%' ∉ cs := fun hm => hl (by simp [hm])
    have ih' := ih hl'
    rw [List.cons_append, findMatch]
    have ht : tryAt (c :: (cs ++ ('<' :: '%' :: '=' :: (e ++ (closeTag ++ rest))))) = none := by
      unfold tryAt
      rw [if_neg ?npre]
      case npre =>
        intro hpre
        obtain ⟨t, hpre⟩ := List.isPrefixOf_iff_prefix.mp hpre
        have hpre' : '<' :: '%' :: '=' :: t
            = c :: (cs ++ ('<' :: '%' :: '=' :: (e ++ (closeTag ++ rest)))) := hpre
        have h2 : '%' :: '=' :: t
            = cs ++ ('<' :: '%' :: '=' :: (e ++ (closeTag ++ rest))) :=
          (List.cons.injEq _ _ _ _ ▸ hpre').2
        cases cs with
        | nil =>
          simp only [List.nil_append, List.cons.injEq] at h2
          exact absurd h2.1 (by decide)
        | cons d ds =>
          simp only [List.cons_append, List.cons.injEq] at h2
          exact hl (by simp [← h2.1])
    rw [ht, ih']

/-- An assembled template is at least as long as its chunk list. -/
theorem assemble_length (chunks : List (List Char × List Char)) :
    ∀ lit0 : List Char, chunks.length ≤ (assemble lit0 chunks).length := by
  induction chunks with
  | nil => intro lit0; simp [assemble]
  | cons p rest ih =>
    intro lit0
    obtain ⟨e, l⟩ := p
    have := ih l
    have ho : openTag.length = 3 := rfl
    have hc : closeTag.length = 3 := rfl
    simp only [assemble, List.length_append, List.length_cons, ho, hc]
    omega

/-- The greedy global replacement on a well-formed assembled template
substitutes each placeholder exactly once, in order, leaving the literal
text unchanged. -/
theorem replaceAllF_assemble (ev : List Char → List Char)
    (chunks : List (List Char × List Char)) :
    ∀ (lit0 : List Char) (fuel : Nat), chunks.length ≤ fuel → '%' ∉ lit0 →
      wfChunks chunks = true →
      replaceAllF ev fuel (assemble lit0 chunks) = substituted ev lit0 chunks := by
  induction chunks with
  | nil =>
    intro lit0 fuel _ hl _
    cases fuel with
    | zero => rfl
    | succ f =>
      simp [assemble, substituted, replaceAllF, findMatch_none_of_no_pct lit0 hl]
  | cons p rest ih =>
    intro lit0 fuel hf hl hwf
    obtain ⟨e, l⟩ := p
    obtain ⟨f, rfl⟩ : ∃ f, fuel = f + 1 := by
      cases fuel with
      | zero => simp at hf
      | succ f => exact ⟨f, rfl⟩
    simp only [wfChunks, Bool.and_eq_true, decide_eq_true_eq] at hwf
    obtain ⟨⟨he, hn, hpl, hend⟩, hrest⟩ := hwf
    have hrr : (assemble l rest).head? = some '\n' ∨ assemble l rest = [] := by
      rcases hend with hh | ⟨h1, h2⟩
      · left
        cases l with
        | nil => simp at hh
        | cons x t =>
          have hx : x = '\n' := by simpa using hh
          subst hx
          cases rest with
          | nil => simp [assemble]
          | cons q qs => simp [assemble]
      · subst h1
        subst h2
        right
        rfl
    have hfm := findMatch_assembled lit0 e (assemble l rest) hl he hn hrr
    have hshape : assemble lit0 ((e, l) :: rest)
        = lit0 ++ ('<' :: '%' :: '=' :: (e ++ (closeTag ++ assemble l rest))) := by
      simp [assemble, openTag]
    rw [hshape, replaceAllF, hfm]
    have hfuel : rest.length ≤ f := by
      simp only [List.length_cons] at hf
      omega
    show lit0 ++ ev e ++ replaceAllF ev f (assemble l rest)
        = substituted ev lit0 ((e, l) :: rest)
    rw [ih l f hfuel hpl hrest]
    simp [substituted, List.append_assoc]

/-- Folding append from the left out of the empty string is plain
concatenation (Array.prototype.join with the empty separator). -/
theorem foldl_append_eq (l : List String) :
    ∀ s : String, List.foldl (fun a b => a ++ b) s l
      = s ++ l.foldr (fun a b => a ++ b) "" := by
  induction l with
  | nil => intro s; simp [String.append_empty]
  | cons a rest ih =>
    intro s
    simp only [List.foldl_cons, List.foldr_cons, ih (s ++ a), str_append_assoc]

/-- String.join is the right fold of concatenation. -/
theorem join_eq_foldr (l : List String) :
    String.join l = l.foldr (fun a b => a ++ b) "" := by
  show List.foldl (fun a b => a ++ b) "" l = _
  rw [foldl_append_eq, String.empty_append]

/-! ## Spec-modelled template files and sample data

The repository's templates directory (templates/gallery.html,
templates/detail.html) is loaded at boot by template.loadDir but the files
themselves are not under src/. -/

/-- Modelled from the spec: templates/detail.html is absent from src/. Per
the spec, the detail page shows the catalog entry's title and description;
the placeholders use the substitution syntax of src/template.js, one per
line. -/
def detailTemplateText : String :=
  "<%= context.title %>\n<%= context.description %>\n"

/-- Modelled from the spec: templates/gallery.html is absent from src/. Per
the spec, the gallery page shows the configured title and the concatenated
image tags; the placeholders use the substitution syntax of
src/template.js, one per line. -/
def galleryTemplateText : String :=
  "<title><%= context.title %></title>\n<%= context.imageTags %>\n"

/-- A sample filesystem used to witness the contract theorems on concrete
data: one image, its catalog entry, one unparsable catalog entry, and the
boot files. -/
def sampleFS : FS :=
  ⟨["images/", "catalog/"],
   [("images/cat.png", "PNGBYTES"),
    ("catalog/cat.json", "\x7b\"title\":\"A Cat\",\"description\":\"Fluffy\"\x7d"),
    ("catalog/bad.json", "not json"),
    ("config.json", "\x7b\"title\":\"Old\"\x7d")]⟩

/-- The sample template store as loadDir would populate it. -/
def sampleTemplates : List (String × String) :=
  [("gallery.html", galleryTemplateText), ("detail.html", detailTemplateText)]

/-- A sample booted server over the sample filesystem. -/
def sampleServer : Server :=
  ⟨⟨"Old"⟩, sampleFS, sampleTemplates, "GALLERYCSS", "DETAILCSS"⟩

/-- An empty multipart body, for requests whose body is irrelevant. -/
def emptyBody : MultipartBody := ⟨"", "", "", ""⟩

/-! ## Claim theorems -/

/-- C1: for every request GET / or GET /gallery, when listing the images
directory succeeds and yields the filename sequence L, the response has
status 200 with Content-Type text/html and its body is the gallery template
rendered with the current config title and with, for each filename f in L in
listing order, exactly one concatenated fragment consisting of an anchor to
detail/f around an image with source f and alt text f; when the listing
fails, the response has status 500. -/
theorem gallery_get_contract (s : Server) (b : MultipartBody) (p : String)
    (hp : p = "/" ∨ p = "/gallery") :
    (∀ L html, s.fs.readdir "images/" = some L →
      render s.templates "gallery.html"
        (galleryContext s.config.title
          ((L.map (fun f => "<a href=\"detail/" ++ f ++ "\"><img src=\"" ++ f ++
            "\" alt=\"" ++ f ++ "\"></a>")).foldr (fun x acc => x ++ acc) ""))
        = some html →
      handleRequest s ⟨"GET", p, b⟩
        = (Outcome.res ⟨200, "OK", some "text/html", html⟩, s)) ∧
    (s.fs.readdir "images/" = none →
      handleRequest s ⟨"GET", p, b⟩
        = (Outcome.res ⟨500, "Server error", none, ""⟩, s)) := by
  have hsplit : splitUrl p = (p, none) := by
    rcases hp with h | h <;> subst h <;> rfl
  have hmain : handleRequest s ⟨"GET", p, b⟩ = (serveGallery s, s) := by
    unfold handleRequest
    rw [hsplit]
    show dispatch s ⟨"GET", p, b⟩ p = (serveGallery s, s)
    unfold dispatch
    rw [if_pos hp, if_pos rfl]
  have hjoin : ∀ L : List String, String.join (imageNamesToTags L)
      = (L.map (fun f => "<a href=\"detail/" ++ f ++ "\"><img src=\"" ++ f ++
          "\" alt=\"" ++ f ++ "\"></a>")).foldr (fun x acc => x ++ acc) "" := by
    intro L
    rw [join_eq_foldr]
    rfl
  constructor
  · intro L html hdir hrender
    rw [hmain]
    unfold serveGallery buildGallery
    simp only [hdir, hjoin L, hrender]
  · intro hdir
    rw [hmain]
    unfold serveGallery
    simp only [hdir]

/-- Witness for C1 on the sample server: GET /gallery answers the rendered
gallery page for the one listed image. -/
theorem gallery_get_contract_witness :
    handleRequest sampleServer ⟨"GET", "/gallery", emptyBody⟩
      = (Outcome.res ⟨200, "OK", some "text/html",
          "<title>Old</title>\n<a href=\"detail/cat.png\"><img src=\"cat.png\" alt=\"cat.png\"></a>\n"⟩,
         sampleServer) :=
  (gallery_get_contract sampleServer emptyBody "/gallery" (Or.inr rfl)).1
    ["cat.png"]
    "<title>Old</title>\n<a href=\"detail/cat.png\"><img src=\"cat.png\" alt=\"cat.png\"></a>\n"
    rfl rfl

/-- Routing fact shared by the image-serving claims: a pathname consisting of
a single slash-free segment that matches no fixed route reaches the default
branch of the switch, which serves the raw request URL as an image. -/
theorem dispatch_default_image (s : Server) (req : Request) (f : String)
    (h1 : f ≠ "gallery") (h2 : f ≠ "gallery.css") (h3 : f ≠ "")
    (h4 : f ≠ "detail") (hslash : ∀ c ∈ f.data, c ≠ '/') :
    dispatch s req ("/" ++ f) = (serveImage s req.url, s) := by
  have hdata : ("/" ++ f).data = '/' :: f.data := by
    rw [String.data_append]
    rfl
  have hne1 : ¬("/" ++ f = "/" ∨ "/" ++ f = "/gallery") := by
    rintro (h | h)
    · rw [strEq_iff, hdata] at h
      simp only [List.cons.injEq] at h
      exact h3 (strEq_iff.mpr (by simp [h.2]))
    · rw [strEq_iff, hdata] at h
      have h' : '/' :: f.data = '/' :: "gallery".data := h
      simp only [List.cons.injEq] at h'
      exact h1 (strEq_iff.mpr h'.2)
  have hne2 : ¬("/" ++ f = "/gallery.css") := by
    intro h
    rw [strEq_iff, hdata] at h
    have h' : '/' :: f.data = '/' :: "gallery.css".data := h
    simp only [List.cons.injEq] at h'
    exact h2 (strEq_iff.mpr h'.2)
  have hparts : splitOnChar '/' ("/" ++ f).data = [[], f.data] := by
    rw [hdata]
    have hh : splitOnChar '/' ('/' :: f.data) = [] :: splitOnChar '/' f.data := by
      simp [splitOnChar]
    rw [hh, splitOn_no_sep '/' f.data hslash]
  have hne3 : ¬ ((splitOnChar '/' ("/" ++ f).data)[1]?
      = some ('d' :: 'e' :: 't' :: 'a' :: 'i' :: 'l' :: [])) := by
    rw [hparts]
    intro h
    simp only [List.getElem?_cons_succ, List.getElem?_cons_zero, Option.some.injEq] at h
    exact h4 (strEq_iff.mpr (by rw [h]))
  unfold dispatch
  rw [if_neg hne1, if_neg hne2, if_neg hne3]

/-- A query-free single-segment URL is handled by serving it as an image. -/
theorem default_route_serves_image (s : Server) (b : MultipartBody) (f : String)
    (h1 : f ≠ "gallery") (h2 : f ≠ "gallery.css") (h3 : f ≠ "")
    (h4 : f ≠ "detail")
    (hchars : ∀ c ∈ f.data, c ≠ '/' ∧ c ≠ '?' ∧ c ≠ '#' ∧ c ≠ '%') :
    handleRequest s ⟨"GET", "/" ++ f, b⟩ = (serveImage s ("/" ++ f), s) := by
  have hdata : ("/" ++ f).data = '/' :: f.data := by
    rw [String.data_append]
    rfl
  have hsplit : splitUrl ("/" ++ f) = ("/" ++ f, none) := by
    apply splitUrl_plain
    rw [hdata]
    intro c hc
    rcases List.mem_cons.mp hc with rfl | hc
    · exact ⟨by decide, by decide⟩
    · exact ⟨(hchars c hc).2.1, (hchars c hc).2.2.1⟩
  unfold handleRequest
  rw [hsplit]
  show dispatch s ⟨"GET", "/" ++ f, b⟩ ("/" ++ f) = (serveImage s ("/" ++ f), s)
  exact dispatch_default_image s _ f h1 h2 h3 h4 (fun c hc => (hchars c hc).1)

/-- C2: for every filename f present in the images directory, GET /f (with no
query string and no special route match) answers 200 with a body
byte-identical to the on-disk file images/f; for every filename f absent
from the images directory, GET /f answers 404. Filenames contain no slash,
query, hash or percent characters. -/
theorem image_get_contract (s : Server) (b : MultipartBody) (f : String)
    (h1 : f ≠ "gallery") (h2 : f ≠ "gallery.css") (h3 : f ≠ "")
    (h4 : f ≠ "detail")
    (hchars : ∀ c ∈ f.data, c ≠ '/' ∧ c ≠ '?' ∧ c ≠ '#' ∧ c ≠ '%') :
    (∀ data, s.fs.readFile ("images/" ++ f) = some data →
      handleRequest s ⟨"GET", "/" ++ f, b⟩
        = (Outcome.res ⟨200, "OK", some "image/*", data⟩, s)) ∧
    (s.fs.readFile ("images/" ++ f) = none →
      handleRequest s ⟨"GET", "/" ++ f, b⟩
        = (Outcome.res ⟨404, "Resource not found", none, ""⟩, s)) := by
  have hroute := default_route_serves_image s b f h1 h2 h3 h4 hchars
  have hdecode : decodeURIComponent ("/" ++ f) = "/" ++ f := by
    apply decode_no_pct
    rw [String.data_append]
    intro c hc
    rcases List.mem_append.mp hc with hc | hc
    · have : c = '/' := by simpa using hc
      simp [this]
    · exact (hchars c hc).2.2.2
  have hreadEq : s.fs.readFile ("images/" ++ ("/" ++ f))
      = s.fs.readFile ("images/" ++ f) :=
    readFile_congr _ (normPath_images_dslash f)
  constructor
  · intro data hread
    rw [hroute]
    unfold serveImage
    rw [hdecode, hreadEq, hread]
  · intro hread
    rw [hroute]
    unfold serveImage
    rw [hdecode, hreadEq, hread]

/-- Witness for C2 on the sample server: the stored image is served
byte-identically and a missing one yields 404. -/
theorem image_get_contract_witness :
    handleRequest sampleServer ⟨"GET", "/cat.png", emptyBody⟩
      = (Outcome.res ⟨200, "OK", some "image/*", "PNGBYTES"⟩, sampleServer) ∧
    handleRequest sampleServer ⟨"GET", "/missing.png", emptyBody⟩
      = (Outcome.res ⟨404, "Resource not found", none, ""⟩, sampleServer) :=
  ⟨(image_get_contract sampleServer emptyBody "cat.png"
      (by decide) (by decide) (by decide) (by decide) (by decide)).1 "PNGBYTES" rfl,
   (image_get_contract sampleServer emptyBody "missing.png"
      (by decide) (by decide) (by decide) (by decide) (by decide)).2 rfl⟩

/-- C9: the default branch looks the served file up at images/ concatenated
with the percent-decoding of the full request URL, query string included;
hence GET /f with any nonempty query string answers 404 even when images/f
exists (assuming no file whose name literally contains the query is
present). Hash and percent characters are excluded so the URL parses
plainly. -/
theorem query_string_image_404 (s : Server) (b : MultipartBody)
    (f q data : String)
    (h1 : f ≠ "gallery") (h2 : f ≠ "gallery.css") (h3 : f ≠ "")
    (h4 : f ≠ "detail")
    (hchars : ∀ c ∈ f.data, c ≠ '/' ∧ c ≠ '?' ∧ c ≠ '#' ∧ c ≠ '%')
    (hq : q ≠ "") (hqchars : ∀ c ∈ q.data, c ≠ '#' ∧ c ≠ '%')
    (hpresent : s.fs.readFile ("images/" ++ f) = some data)
    (habsent : s.fs.readFile ("images/" ++ f ++ "?" ++ q) = none) :
    (handleRequest s ⟨"GET", "/" ++ f ++ "?" ++ q, b⟩).1
      = Outcome.res ⟨404, "Resource not found", none, ""⟩ := by
  have hsplit : splitUrl ("/" ++ f ++ "?" ++ q) = ("/" ++ f, some q) := by
    apply splitUrl_query
    · rw [String.data_append]
      intro c hc
      rcases List.mem_append.mp hc with hc | hc
      · have : c = '/' := by simpa using hc
        simp [this]
      · exact ⟨(hchars c hc).2.1, (hchars c hc).2.2.1⟩
    · exact fun c hc => (hqchars c hc).1
  unfold handleRequest
  rw [hsplit]
  show (dispatch (updateTitle s (some q)) ⟨"GET", "/" ++ f ++ "?" ++ q, b⟩
    ("/" ++ f)).1 = _
  rw [dispatch_default_image (updateTitle s (some q)) _ f h1 h2 h3 h4
    (fun c hc => (hchars c hc).1)]
  show serveImage (updateTitle s (some q)) ("/" ++ f ++ "?" ++ q) = _
  unfold serveImage
  have hdecode : decodeURIComponent ("/" ++ f ++ "?" ++ q)
      = "/" ++ f ++ "?" ++ q := by
    apply decode_no_pct
    rw [String.data_append, String.data_append, String.data_append]
    intro c hc
    rcases List.mem_append.mp hc with hc | hc
    · rcases List.mem_append.mp hc with hc | hc
      · rcases List.mem_append.mp hc with hc | hc
        · have : c = '/' := by simpa using hc
          simp [this]
        · exact (hchars c hc).2.2.2
      · have : c = '?' := by simpa using hc
        simp [this]
    · exact (hqchars c hc).2
  rw [hdecode]
  have he : ("/" : String) ++ (f ++ "?" ++ q) = "/" ++ f ++ "?" ++ q := by
    rw [← str_append_assoc, ← str_append_assoc]
  have hkey : normPath ("images/" ++ ("/" ++ f ++ "?" ++ q))
      = normPath ("images/" ++ (f ++ "?" ++ q)) := by
    rw [← he]
    exact normPath_images_dslash (f ++ "?" ++ q)
  have hstep1 := readFile_congr (updateTitle s (some q)).fs hkey
  have hstep2 : (updateTitle s (some q)).fs.readFile ("images/" ++ (f ++ "?" ++ q))
      = s.fs.readFile ("images/" ++ (f ++ "?" ++ q)) :=
    (updateTitle_preserves s (some q)).2.2.2 _ (normPath_images_ne_config _)
  have hstep3 : s.fs.readFile ("images/" ++ (f ++ "?" ++ q)) = none := by
    have hie : ("images/" : String) ++ (f ++ "?" ++ q) = "images/" ++ f ++ "?" ++ q := by
      rw [← str_append_assoc, ← str_append_assoc]
    rw [hie]
    exact habsent
  rw [hstep1, hstep2, hstep3]

/-- Witness for C9 on the sample server: images/cat.png exists, yet
GET /cat.png?x=1 answers 404. -/
theorem query_string_image_404_witness :
    (handleRequest sampleServer
      ⟨"GET", "/" ++ "cat.png" ++ "?" ++ "x=1", emptyBody⟩).1
      = Outcome.res ⟨404, "Resource not found", none, ""⟩ :=
  query_string_image_404 sampleServer emptyBody "cat.png" "x=1" "PNGBYTES"
    (by decide) (by decide) (by decide) (by decide) (by decide)
    (by decide) (by decide) rfl rfl

/-- C5: for every incoming request, of any method and path, whose URL query
string matches the title regex with captured value v, the in-memory config
title is overwritten with the URL-decoded v and config.json is rewritten as
the JSON serialization of the config object with that title, so that every
subsequent gallery render uses the new title. -/
theorem title_query_updates_config (s : Server) (req : Request) (p q v : String)
    (hsplit : splitUrl req.url = (p, some q))
    (hmatch : execTitle q = some v) :
    ((handleRequest s req).2).config = ⟨decodeURIComponent v⟩ ∧
    ((handleRequest s req).2).fs.readFile "config.json"
      = some (jsonStringifyConfig ⟨decodeURIComponent v⟩) ∧
    ∀ L : List String, buildGallery (handleRequest s req).2 L
      = render ((handleRequest s req).2).templates "gallery.html"
          (galleryContext (decodeURIComponent v)
            (String.join (imageNamesToTags L))) := by
  have hq : q ≠ "" := by
    intro h
    subst h
    simp [execTitle, execTitleAux] at hmatch
  have hstate : (handleRequest s req).2
      = (dispatch (updateTitle s (some q)) req p).2 := by
    unfold handleRequest
    rw [hsplit]
  have hs1 : updateTitle s (some q)
      = { s with config := ⟨decodeURIComponent v⟩, fs := s.fs.writeFile "config.json" (jsonStringifyConfig ⟨decodeURIComponent v⟩) } :=
    updateTitle_match s q v hq hmatch
  have hd := dispatch_preserves_config (updateTitle s (some q)) req p
  have hc1 : ((handleRequest s req).2).config = ⟨decodeURIComponent v⟩ := by
    rw [hstate, hd.1, hs1]
  refine ⟨hc1, ?_, ?_⟩
  · rw [hstate, hd.2, hs1]
    exact readFile_writeFile_same _ _ _ _ rfl
  · intro L
    unfold buildGallery
    rw [hc1]

/-- Witness for C5 on the sample server: a request with query
title=My%20Gallery sets the decoded title, rewrites config.json, and makes
the gallery render with the new title. -/
theorem title_query_updates_config_witness :
    ((handleRequest sampleServer
      ⟨"GET", "/gallery?title=My%20Gallery", emptyBody⟩).2).config
      = ⟨"My Gallery"⟩ ∧
    ((handleRequest sampleServer
      ⟨"GET", "/gallery?title=My%20Gallery", emptyBody⟩).2).fs.readFile "config.json"
      = some "\x7b\"title\":\"My Gallery\"\x7d" ∧
    buildGallery
      (handleRequest sampleServer
        ⟨"GET", "/gallery?title=My%20Gallery", emptyBody⟩).2 ["cat.png"]
      = render
          ((handleRequest sampleServer
            ⟨"GET", "/gallery?title=My%20Gallery", emptyBody⟩).2).templates
          "gallery.html"
          (galleryContext "My Gallery"
            (String.join (imageNamesToTags ["cat.png"]))) := by
  have h := title_query_updates_config sampleServer
    ⟨"GET", "/gallery?title=My%20Gallery", emptyBody⟩
    "/gallery" "title=My%20Gallery" "My%20Gallery" rfl rfl
  exact ⟨h.1, h.2.1, h.2.2 ["cat.png"]⟩

/-- C10: for every request whose URL query string contains no match of the
title regex with a nonempty value, including requests with no query string
and with an empty title parameter, request handling leaves the in-memory
config and the config.json file unchanged; handleRequest is the whole
request path, so no other handler mutates the config. -/
theorem no_title_match_frame (s : Server) (req : Request)
    (h : ∀ q, (splitUrl req.url).2 = some q → (q = "" ∨ execTitle q = none)) :
    ((handleRequest s req).2).config = s.config ∧
    ((handleRequest s req).2).fs.readFile "config.json"
      = s.fs.readFile "config.json" := by
  have hstate : (handleRequest s req).2
      = (dispatch (updateTitle s (splitUrl req.url).2) req (splitUrl req.url).1).2 := by
    unfold handleRequest
    rfl
  have hu : updateTitle s (splitUrl req.url).2 = s := by
    cases hsq : (splitUrl req.url).2 with
    | none => rfl
    | some q =>
      rcases h q hsq with h1 | h1
      · rw [h1]
        simp [updateTitle]
      · exact updateTitle_no_match s q h1
  have hd := dispatch_preserves_config (updateTitle s (splitUrl req.url).2) req
    (splitUrl req.url).1
  constructor
  · rw [hstate, hd.1, hu]
  · rw [hstate, hd.2, hu]

/-- Witness for C10 on the sample server: a request whose query has no title
parameter leaves the config and config.json untouched. -/
theorem no_title_match_frame_witness :
    ((handleRequest sampleServer ⟨"GET", "/gallery?x=1", emptyBody⟩).2).config
      = sampleServer.config ∧
    ((handleRequest sampleServer
      ⟨"GET", "/gallery?x=1", emptyBody⟩).2).fs.readFile "config.json"
      = sampleServer.fs.readFile "config.json" :=
  no_title_match_frame sampleServer ⟨"GET", "/gallery?x=1", emptyBody⟩
    (by
      intro q hq
      right
      obtain rfl : "x=1" = q := Option.some.inj hq
      rfl)

/-- The root and gallery POST route runs the combined upload handlers. -/
theorem post_route (s : Server) (b : MultipartBody) (p : String)
    (hp : p = "/" ∨ p = "/gallery") :
    handleRequest s ⟨"POST", p, b⟩
      = ((handlePost s b).1, { s with fs := (handlePost s b).2 }) := by
  have hsplit : splitUrl p = (p, none) := by
    rcases hp with h | h <;> subst h <;> rfl
  unfold handleRequest
  rw [hsplit]
  show dispatch s ⟨"POST", p, b⟩ p = _
  unfold dispatch
  rw [if_pos hp, if_neg (by decide : ¬("POST" : String) = "GET"), if_pos rfl]

/-- C4: for every POST / or POST /gallery with a multipart body: when no file
is supplied the response is 400 with message No file specified; when a file
is supplied but the title field is missing (parsed as the empty string) the
response is 400 with message No title specified; when file and title are
supplied but the description is missing the response is 400 with message No
description specified. -/
theorem upload_validation_contract (s : Server) (b : MultipartBody) (p : String)
    (hp : p = "/" ∨ p = "/gallery") :
    (b.imageFilename = "" →
      (handleRequest s ⟨"POST", p, b⟩).1
        = Outcome.res ⟨400, "No file specified", none, "No file specified"⟩) ∧
    (b.imageFilename ≠ "" → b.title = "" →
      (handleRequest s ⟨"POST", p, b⟩).1
        = Outcome.res ⟨400, "No title specified", none, "No title specified"⟩) ∧
    (b.imageFilename ≠ "" → b.title ≠ "" → b.description = "" →
      (handleRequest s ⟨"POST", p, b⟩).1
        = Outcome.res ⟨400, "No description specified", none,
            "No description specified"⟩) := by
  have hmain := post_route s b p hp
  refine ⟨?_, ?_, ?_⟩
  · intro hf
    rw [hmain]
    simp [handlePost, hf]
  · intro hf ht
    rw [hmain]
    simp [handlePost, hf, ht]
  · intro hf ht hd
    rw [hmain]
    simp [handlePost, hf, ht, hd]

/-- Witness for C4 on the sample server, one concrete body per missing
field. -/
theorem upload_validation_contract_witness :
    (handleRequest sampleServer ⟨"POST", "/gallery", ⟨"", "", "T", "D"⟩⟩).1
      = Outcome.res ⟨400, "No file specified", none, "No file specified"⟩ ∧
    (handleRequest sampleServer ⟨"POST", "/gallery", ⟨"x.png", "B", "", "D"⟩⟩).1
      = Outcome.res ⟨400, "No title specified", none, "No title specified"⟩ ∧
    (handleRequest sampleServer ⟨"POST", "/gallery", ⟨"x.png", "B", "T", ""⟩⟩).1
      = Outcome.res ⟨400, "No description specified", none,
          "No description specified"⟩ :=
  ⟨(upload_validation_contract sampleServer ⟨"", "", "T", "D"⟩ "/gallery"
      (Or.inr rfl)).1 rfl,
   (upload_validation_contract sampleServer ⟨"x.png", "B", "", "D"⟩ "/gallery"
      (Or.inr rfl)).2.1 (by decide) rfl,
   (upload_validation_contract sampleServer ⟨"x.png", "B", "T", ""⟩ "/gallery"
      (Or.inr rfl)).2.2 (by decide) (by decide) rfl⟩

/-- C6: for every payload, a successful POST /gallery uploading a file named
x.png with that payload, followed by GET /x.png, yields a response body
byte-identical to the payload (success here meaning all validated fields are
present, so the image write happens). -/
theorem upload_then_get_roundtrip (s : Server) (payload ttl dsc : String)
    (b2 : MultipartBody) (ht : ttl ≠ "") (hd : dsc ≠ "") :
    (handleRequest
      ((handleRequest s ⟨"POST", "/gallery", ⟨"x.png", payload, ttl, dsc⟩⟩).2)
      ⟨"GET", "/" ++ "x.png", b2⟩).1
      = Outcome.res ⟨200, "OK", some "image/*", payload⟩ := by
  have hmain := post_route s ⟨"x.png", payload, ttl, dsc⟩ "/gallery" (Or.inr rfl)
  have hpost2 : (handlePost s ⟨"x.png", payload, ttl, dsc⟩).2
      = (s.fs.writeFile ("images/" ++ "x.png") payload).writeFile ("catalog/" ++ "x" ++ ".json") (catalogEntryText ⟨"x.png", payload, ttl, dsc⟩) := by
    simp [handlePost, ht, hd]
    try rfl
  have hread : ((handlePost s ⟨"x.png", payload, ttl, dsc⟩).2).readFile
      ("images/" ++ ("/" ++ "x.png")) = some payload := by
    rw [readFile_congr _ (normPath_images_dslash "x.png"), hpost2]
    rw [readFile_writeFile_other _ _ _ _ (by decide)]
    exact readFile_writeFile_same _ _ _ _ rfl
  rw [hmain]
  show (handleRequest
    { s with fs := (handlePost s ⟨"x.png", payload, ttl, dsc⟩).2 }
    ⟨"GET", "/" ++ "x.png", b2⟩).1 = _
  rw [default_route_serves_image
    { s with fs := (handlePost s ⟨"x.png", payload, ttl, dsc⟩).2 } b2 "x.png"
    (by decide) (by decide) (by decide) (by decide) (by decide)]
  show serveImage { s with fs := (handlePost s ⟨"x.png", payload, ttl, dsc⟩).2 }
    ("/" ++ "x.png") = _
  unfold serveImage
  rw [show ({ s with fs := (handlePost s ⟨"x.png", payload, ttl, dsc⟩).2 } : Server).fs = (handlePost s ⟨"x.png", payload, ttl, dsc⟩).2 from rfl]
  rw [show decodeURIComponent ("/" ++ "x.png") = "/" ++ "x.png" from by
    apply decode_no_pct
    decide]
  rw [hread]

/-- Witness for C6 on the sample server with a concrete payload. -/
theorem upload_then_get_roundtrip_witness :
    (handleRequest
      ((handleRequest sampleServer
        ⟨"POST", "/gallery", ⟨"x.png", "BYTES", "T", "D"⟩⟩).2)
      ⟨"GET", "/" ++ "x.png", emptyBody⟩).1
      = Outcome.res ⟨200, "OK", some "image/*", "BYTES"⟩ :=
  upload_then_get_roundtrip sampleServer "BYTES" "T" "D" emptyBody
    (by decide) (by decide)

/-- C8 counterexample: GET /details.css does not return 200 with the detail
stylesheet as the claim states: the pathname matches no fixed route, falls
through to image serving, and on the sample server (whose images directory
holds no details.css) the response is 404. -/
theorem details_css_root_not_stylesheet :
    (handleRequest sampleServer ⟨"GET", "/details.css", emptyBody⟩).1
      = Outcome.res ⟨404, "Resource not found", none, ""⟩ := rfl

/-- C8 amended: GET /gallery.css answers 200 text/css with the stylesheet
read at boot, with no failure branch; the detail stylesheet read at boot is
served, also unconditionally, at GET /detail/details.css; GET /details.css
itself is handled by the image branch and answers 404 when the images
directory holds no file named details.css. -/
theorem stylesheet_routes_contract (s : Server) (b : MultipartBody) :
    handleRequest s ⟨"GET", "/gallery.css", b⟩
      = (Outcome.res ⟨200, "OK", some "text/css", s.stylesheet⟩, s) ∧
    handleRequest s ⟨"GET", "/detail/details.css", b⟩
      = (Outcome.res ⟨200, "OK", some "text/css", s.detailStylesheet⟩, s) ∧
    (s.fs.readFile ("images/" ++ "details.css") = none →
      handleRequest s ⟨"GET", "/" ++ "details.css", b⟩
        = (Outcome.res ⟨404, "Resource not found", none, ""⟩, s)) := by
  refine ⟨rfl, rfl, ?_⟩
  intro hread
  rw [default_route_serves_image s b "details.css" (by decide) (by decide)
    (by decide) (by decide) (by decide)]
  unfold serveImage
  rw [show decodeURIComponent ("/" ++ "details.css") = "/" ++ "details.css" from by
    apply decode_no_pct
    decide]
  rw [readFile_congr _ (normPath_images_dslash "details.css"), hread]

/-- Witness for the amended C8 on the sample server. -/
theorem stylesheet_routes_contract_witness :
    handleRequest sampleServer ⟨"GET", "/gallery.css", emptyBody⟩
      = (Outcome.res ⟨200, "OK", some "text/css", "GALLERYCSS"⟩, sampleServer) ∧
    handleRequest sampleServer ⟨"GET", "/detail/details.css", emptyBody⟩
      = (Outcome.res ⟨200, "OK", some "text/css", "DETAILCSS"⟩, sampleServer) ∧
    handleRequest sampleServer ⟨"GET", "/" ++ "details.css", emptyBody⟩
      = (Outcome.res ⟨404, "Resource not found", none, ""⟩, sampleServer) :=
  ⟨(stylesheet_routes_contract sampleServer emptyBody).1,
   (stylesheet_routes_contract sampleServer emptyBody).2.1,
   (stylesheet_routes_contract sampleServer emptyBody).2.2 rfl⟩

/-- C3 counterexample: on the sample server catalog/bad.json exists but holds
text that is not valid JSON; GET /detail/bad.png then throws an uncaught
exception out of JSON.parse (killing the process, so no response is sent)
rather than answering 500 as the claim states. -/
theorem detail_invalid_json_crashes :
    (handleRequest sampleServer ⟨"GET", "/detail/bad.png", emptyBody⟩).1
      = Outcome.crash := rfl

/-- C3 amended: for GET /detail/name where name is base.ext with a dot-free
base and is none of the four specially routed segments: when
catalog/base.json is missing the response is 500; when it exists but does
not parse as JSON the handler throws (no response); when it parses and the
detail template is the spec-modelled one showing title and description, the
response is 200 text/html whose body carries the entry's title and
description. -/
theorem detail_get_contract (s : Server) (b : MultipartBody)
    (name base ext : String)
    (hname : name = base ++ "." ++ ext)
    (hdot : ∀ c ∈ base.data, c ≠ '.')
    (hchars : ∀ c ∈ name.data, c ≠ '/' ∧ c ≠ '?' ∧ c ≠ '#')
    (hn1 : name ≠ "images") (hn2 : name ≠ "details.css")
    (hn3 : name ≠ "details.json") (hn4 : name ≠ "gallery.json") :
    (s.fs.readFile ("catalog/" ++ base ++ ".json") = none →
      (handleRequest s ⟨"GET", "/detail/" ++ name, b⟩).1
        = Outcome.res ⟨500, "Server error", none, ""⟩) ∧
    (∀ d, s.fs.readFile ("catalog/" ++ base ++ ".json") = some d →
      jsonParse d = none →
      (handleRequest s ⟨"GET", "/detail/" ++ name, b⟩).1 = Outcome.crash) ∧
    (∀ d v t dsc, s.fs.readFile ("catalog/" ++ base ++ ".json") = some d →
      jsonParse d = some v →
      v.getField "title" = some (Json.str t) →
      v.getField "description" = some (Json.str dsc) →
      ((s.templates.find? (fun e => e.1 = "detail.html")).map (fun e => e.2))
        = some detailTemplateText →
      (handleRequest s ⟨"GET", "/detail/" ++ name, b⟩).1
        = Outcome.res ⟨200, "OK", some "text/html",
            t ++ "\n" ++ dsc ++ "\n"⟩) := by
  have hdata : ("/detail/" ++ name).data
      = '/' :: 'd' :: 'e' :: 't' :: 'a' :: 'i' :: 'l' :: '/' :: name.data := by
    rw [String.data_append]
    rfl
  have hsplit : splitUrl ("/detail/" ++ name) = ("/detail/" ++ name, none) := by
    apply splitUrl_plain
    rw [hdata]
    intro c hc
    simp only [List.mem_cons] at hc
    rcases hc with rfl | rfl | rfl | rfl | rfl | rfl | rfl | rfl | hm
    · exact ⟨by decide, by decide⟩
    · exact ⟨by decide, by decide⟩
    · exact ⟨by decide, by decide⟩
    · exact ⟨by decide, by decide⟩
    · exact ⟨by decide, by decide⟩
    · exact ⟨by decide, by decide⟩
    · exact ⟨by decide, by decide⟩
    · exact ⟨by decide, by decide⟩
    · exact ⟨(hchars c hm).2.1, (hchars c hm).2.2⟩
  have hne1 : ¬("/detail/" ++ name = "/" ∨ "/detail/" ++ name = "/gallery") := by
    rintro (h | h) <;> (rw [strEq_iff, hdata] at h; simp at h)
  have hne2 : ¬("/detail/" ++ name = "/gallery.css") := by
    intro h
    rw [strEq_iff, hdata] at h
    simp at h
  have hparts : splitOnChar '/' ("/detail/" ++ name).data
      = [[], ['d', 'e', 't', 'a', 'i', 'l'], name.data] := by
    rw [hdata]
    have h1 : splitOnChar '/'
        ('/' :: 'd' :: 'e' :: 't' :: 'a' :: 'i' :: 'l' :: '/' :: name.data)
        = [] :: splitOnChar '/'
            ('d' :: 'e' :: 't' :: 'a' :: 'i' :: 'l' :: '/' :: name.data) := by
      simp [splitOnChar]
    have h2 : ('d' :: 'e' :: 't' :: 'a' :: 'i' :: 'l' :: '/' :: name.data)
        = ['d', 'e', 't', 'a', 'i', 'l'] ++ '/' :: name.data := rfl
    rw [h1, h2, splitOn_first '/' _ _ (by decide),
      splitOn_no_sep '/' name.data (fun c hc => (hchars c hc).1)]
  have hroute : (handleRequest s ⟨"GET", "/detail/" ++ name, b⟩).1
      = serveDetail s name := by
    unfold handleRequest
    rw [hsplit]
    show (dispatch s ⟨"GET", "/detail/" ++ name, b⟩ ("/detail/" ++ name)).1 = _
    unfold dispatch
    rw [if_neg hne1, if_neg hne2, hparts, if_pos (by rfl)]
    show detailDispatch s [[], ['d', 'e', 't', 'a', 'i', 'l'], name.data]
      = serveDetail s name
    unfold detailDispatch
    simp only [List.getElem?_cons_succ, List.getElem?_cons_zero]
    rw [if_neg (show ¬ (String.mk name.data = "images") from hn1),
      if_neg (show ¬ (String.mk name.data = "details.css") from hn2),
      if_neg (show ¬ (String.mk name.data = "details.json"
        ∨ String.mk name.data = "gallery.json") from fun h =>
          h.elim (fun h1 => hn3 h1) (fun h2 => hn4 h2))]
  have hbasec : (splitOnChar '.' name.data).headD [] = base.data := by
    have hnd : name.data = base.data ++ '.' :: ext.data := by
      rw [hname, String.data_append, String.data_append, List.append_assoc]
      rfl
    rw [hnd, splitOn_first '.' base.data ext.data hdot]
    rfl
  have hcat : ("catalog/" ++ String.mk ((splitOnChar '.' name.data).headD [])
      ++ ".json") = "catalog/" ++ base ++ ".json" := by
    rw [hbasec]
  refine ⟨?_, ?_, ?_⟩
  · intro hread
    rw [hroute]
    unfold serveDetail
    simp only [hcat, hread]
  · intro d hread hparse
    rw [hroute]
    unfold serveDetail
    simp only [hcat, hread, hparse]
  · intro d v t dsc hread hparse ht hdsc htpl
    rw [hroute]
    unfold serveDetail
    have hbd : buildDetail s v = some (t ++ "\n" ++ dsc ++ "\n") := by
      unfold buildDetail render
      simp only [htpl]
      unfold jsReplaceAll
      have hasm : detailTemplateText.data
          = assemble [] [((" context.title").data, ['\n']),
              ((" context.description").data, ['\n'])] := rfl
      rw [hasm, replaceAllF_assemble _ _ [] _ (by decide) (by simp) (by decide)]
      have hev1 : (evalContext v (String.mk (" context.title").data)).data
          = t.data := by
        have h0 : evalContext v (String.mk (" context.title").data)
            = (match v.getField "title" with
                | some j => jsDisplay j
                | none => "undefined") := rfl
        rw [h0, ht]
        rfl
      have hev2 : (evalContext v (String.mk (" context.description").data)).data
          = dsc.data := by
        have h0 : evalContext v (String.mk (" context.description").data)
            = (match v.getField "description" with
                | some j => jsDisplay j
                | none => "undefined") := rfl
        rw [h0, hdsc]
        rfl
      simp only [substituted, hev1, hev2]
      simp [strEq_iff, String.data_append, List.append_assoc]
    simp only [hcat, hread, hparse, hbd]

/-- Witness for the amended C3 on the sample server: the stored valid entry
renders 200 with its title and description, and a missing entry yields
500. -/
theorem detail_get_contract_witness :
    (handleRequest sampleServer ⟨"GET", "/detail/" ++ "cat.png", emptyBody⟩).1
      = Outcome.res ⟨200, "OK", some "text/html",
          "A Cat" ++ "\n" ++ "Fluffy" ++ "\n"⟩ ∧
    (handleRequest sampleServer ⟨"GET", "/detail/" ++ "dog.png", emptyBody⟩).1
      = Outcome.res ⟨500, "Server error", none, ""⟩ := by
  constructor
  · exact (detail_get_contract sampleServer emptyBody "cat.png" "cat" "png"
      rfl (by decide) (by decide) (by decide) (by decide) (by decide)
      (by decide)).2.2
      "\x7b\"title\":\"A Cat\",\"description\":\"Fluffy\"\x7d"
      (Json.obj [("title", Json.str "A Cat"), ("description", Json.str "Fluffy")])
      "A Cat" "Fluffy" rfl rfl rfl rfl rfl
  · exact (detail_get_contract sampleServer emptyBody "dog.png" "dog" "png"
      rfl (by decide) (by decide) (by decide) (by decide) (by decide)
      (by decide)).1 rfl

/-- C7: for every template name present in the store, render returns the
stored template text with every occurrence of a placeholder replaced by the
result of evaluating the enclosed expression against the given context,
leaving all other characters unchanged — stated over templates whose
placeholders are well separated in the sense of wfChunks, on which
placeholder occurrences are unambiguous under the code's greedy pattern —
and for every name absent from the store, render fails (none, modelling the
thrown TypeError). -/
theorem render_substitution_contract (templates : List (String × String))
    (name : String) (ctx : Json) (lit0 : List Char)
    (chunks : List (List Char × List Char))
    (hname : (templates.find? (fun e => e.1 = name)).map (fun e => e.2)
      = some (String.mk (assemble lit0 chunks)))
    (hl : '%' ∉ lit0) (hwf : wfChunks chunks = true) :
    render templates name ctx
      = some (String.mk (substituted
          (fun cap => (evalContext ctx (String.mk cap)).data) lit0 chunks)) ∧
    ∀ n2, (templates.find? (fun e => e.1 = n2)).map (fun e => e.2) = none →
      render templates n2 ctx = none := by
  constructor
  · unfold render
    simp only [hname]
    show some (String.mk (replaceAllF
      (fun cap => (evalContext ctx (String.mk cap)).data)
      (assemble lit0 chunks).length (assemble lit0 chunks))) = _
    rw [replaceAllF_assemble _ chunks lit0 _ (assemble_length chunks lit0) hl hwf]
  · intro n2 h2
    unfold render
    simp only [h2]

/-- Witness for C7 on the sample store: the detail template renders with
both placeholders substituted from the context, and an absent template name
fails. -/
theorem render_substitution_contract_witness :
    render sampleTemplates "detail.html"
      (Json.obj [("title", Json.str "T1"), ("description", Json.str "D2")])
      = some ("T1" ++ "\n" ++ "D2" ++ "\n") ∧
    render sampleTemplates "missing.html"
      (Json.obj [("title", Json.str "T1"), ("description", Json.str "D2")])
      = none := by
  have h := render_substitution_contract sampleTemplates "detail.html"
    (Json.obj [("title", Json.str "T1"), ("description", Json.str "D2")])
    [] [((" context.title").data, ['\n']), ((" context.description").data, ['\n'])]
    rfl (by simp) (by decide)
  exact ⟨h.1, h.2 "missing.html" rfl⟩

end SimpleCatalog
